import Mathlib

/-!
Verification of the coaxial reactive web framework.

This file gives a shallow embedding (in Lean) of the parts of the source
relevant to the stated properties: the markup `Content` tree and its
canonicalization (`src/html/content.rs`), the HTML renderer, the reactivity
compiler (`src/html/content.rs`, `src/reactive_js.rs`), the state cells and
change queue (`src/states.rs`, `src/state.rs`), the computed-state graph
(`src/computed.rs`), the client-event registry (`src/event_handlers.rs`),
the live socket message handler (`src/live.rs`), and id minting
(`src/context.rs`, `src/random_id.rs`).
-/

namespace Coaxial

/-- Rust `RandomId` from `src/random_id.rs`: an 8-character alphanumeric id.
We model the byte array as a list of characters. -/
structure RandomId where
  chars : List Char
deriving DecidableEq, Repr

/-- Rust `RandomId::fmt`: writes the characters one by one. -/
def RandomId.fmtStr (r : RandomId) : String :=
  String.mk r.chars

/-- Rust `StateDescriptor` from `src/html/attribute.rs`. -/
structure StateDescriptor where
  display : String
  state_id : String
deriving DecidableEq, Repr

/-- Rust `ClosureDescriptor` from `src/html/attribute.rs`. -/
structure ClosureDescriptor where
  closure_id : RandomId
deriving DecidableEq, Repr

/-- One character of `html_escape::encode_text`: `&`, `<`, `>` are replaced
by their entities, every other character is kept. -/
def escTextChar (c : Char) : String :=
  if c = '&' then "&amp;"
  else if c = '<' then "&lt;"
  else if c = '>' then "&gt;"
  else String.mk [c]

/-- Rust `html_escape::encode_text` over a character list. -/
def encChars : List Char → String
  | [] => ""
  | c :: cs => escTextChar c ++ encChars cs

/-- Rust `html_escape::encode_text`. -/
def encodeText (s : String) : String :=
  encChars s.data

/-- One character of `html_escape::encode_double_quoted_attribute`:
`&` and `"` are replaced by their entities. -/
def escAttrChar (c : Char) : String :=
  if c = '&' then "&amp;"
  else if c = '"' then "&quot;"
  else String.mk [c]

/-- Rust `html_escape::encode_double_quoted_attribute` over a character list. -/
def encAttrChars : List Char → String
  | [] => ""
  | c :: cs => escAttrChar c ++ encAttrChars cs

/-- Rust `html_escape::encode_double_quoted_attribute`. -/
def encodeDoubleQuotedAttribute (s : String) : String :=
  encAttrChars s.data

/-- One character of `html_escape::encode_script_single_quoted_text`:
backslash and single quote are backslash-escaped. -/
def escScriptChar (c : Char) : String :=
  if c = '\\' then "\\\\"
  else if c = '\'' then "\\'"
  else String.mk [c]

/-- Rust `html_escape::encode_script_single_quoted_text` over a character list. -/
def encScriptChars : List Char → String
  | [] => ""
  | c :: cs => escScriptChar c ++ encScriptChars cs

/-- Rust `html_escape::encode_script_single_quoted_text`. -/
def encodeScriptSingleQuotedText (s : String) : String :=
  encScriptChars s.data

/-- Rust `AttributeValue` from `src/html/attribute.rs`. -/
inductive AttrValue where
  | Raw (s : String)
  | Text (s : String)
  | State (d : StateDescriptor)
  | Closure (d : ClosureDescriptor)
deriving DecidableEq, Repr

/-- Rust `Attribute` from `src/html/attribute.rs`. -/
inductive Attr where
  | Empty
  | Value (v : AttrValue)
  | List (l : List AttrValue)
deriving DecidableEq, Repr

/-- Rust `AttributeValue::render` from `src/html/attribute.rs`. -/
def AttrValue.render : AttrValue → String
  | .Raw s => s
  | .Text s => encodeDoubleQuotedAttribute s
  | .State d => d.display
  | .Closure d => "window.Coaxial.callClosure('" ++ d.closure_id.fmtStr ++ "')"

/-- Rust `Attribute::render` from `src/html/attribute.rs`. -/
def Attr.render : Attr → String
  | .Empty => ""
  | .Value v => v.render
  | .List l => (l.map AttrValue.render).foldl (· ++ ·) ""

/-- The markup `Content` tree from `src/html/content.rs`.  The Rust
`Content::Element(Box<Element>)` case carries a struct `Element`
(`src/html/element.rs`) with fields `id`, `name`, `content`, `attributes`;
we inline those fields into the constructor.  Attributes are modelled as the
key-sorted association list that the (debug) renderer iterates. -/
inductive Content where
  | Empty
  | Raw (s : String)
  | Text (s : String)
  | State (d : StateDescriptor)
  | Element (id : Option RandomId) (name : String) (content : Content)
      (attrs : List (String × Attr))
  | List (l : List Content)

/-- Rust `matches!(content, Content::Empty)`, the test used by the `retain` call
in `Content::optimize_list`. -/
def Content.isEmptyC : Content → Bool
  | .Empty => true
  | _ => false

/-- Rust `matches!(c, Content::Text(_) | Content::Raw(_))`, the literal test of
the merging loop in `Content::optimize_list`. -/
def Content.isLit : Content → Bool
  | .Text _ => true
  | .Raw _ => true
  | _ => false

/-- The raw string produced by `Content::text_to_raw`: the payload for `Raw`,
the HTML-escaped payload for `Text` (only ever applied to literals). -/
def Content.litStr : Content → String
  | .Text s => encodeText s
  | .Raw s => s
  | _ => ""

mutual

/-- Size measure on content trees, used for termination. -/
def Content.weight : Content → Nat
  | .Empty => 1
  | .Raw _ => 1
  | .Text _ => 1
  | .State _ => 1
  | .Element _ _ c _ => 1 + Content.weight c
  | .List l => 2 + weightL l

/-- Size measure on content lists. -/
def weightL : List Content → Nat
  | [] => 0
  | c :: cs => Content.weight c + weightL cs

end

theorem weightL_append (l₁ l₂ : List Content) :
    weightL (l₁ ++ l₂) = weightL l₁ + weightL l₂ := by
  induction l₁ with
  | nil => simp [weightL]
  | cons c cs ih => simp [weightL, ih]; omega

theorem Content.weight_pos (c : Content) : 0 < c.weight := by
  cases c <;> simp only [Content.weight] <;> omega

/-- The list-in-list flattening loop of `Content::optimize_list`
(`src/html/content.rs`).  The result prefix plays the role of the loop index
`i`; the condition `i + 1 < list.len()` means the final element is never
inspected.  When slot `i` holds a `List`, the source swaps `Empty` into the
slot and splices the inner list just before it, then continues at the same
index. -/
def flattenStep : List Content → List Content
  | [] => []
  | [c] => [c]
  | .List inner :: c₂ :: rest => flattenStep (inner ++ .Empty :: c₂ :: rest)
  | c :: c₂ :: rest => c :: flattenStep (c₂ :: rest)
termination_by l => weightL l
decreasing_by
  · simp [weightL_append, weightL, Content.weight]; omega
  · have := Content.weight_pos c; simp [weightL]; omega

/-- The adjacent-literal merging loop of `Content::optimize_list`
(`src/html/content.rs`).  After a merge the source advances the index
unconditionally, so the merged literal is not reconsidered against the next
element. -/
def mergeStep : List Content → List Content
  | x :: y :: rest =>
    if x.isLit && y.isLit then .Raw (x.litStr ++ y.litStr) :: mergeStep rest
    else x :: mergeStep (y :: rest)
  | l => l
termination_by l => l.length

mutual

/-- Rust `Content::optimize` from `src/html/content.rs`: children are optimized
first, then an empty list collapses to `Empty`, a singleton list is promoted,
and longer lists are passed through `optimize_list` (flatten, retain
non-empty, merge adjacent literals) and re-checked. -/
def Content.optimize : Content → Content
  | .Empty => .Empty
  | .Raw s => .Raw s
  | .Text s => .Text s
  | .State d => .State d
  | .Element id name c attrs => .Element id name c.optimize attrs
  | .List l =>
    match optimizeL l with
    | [] => .Empty
    | [c] => c
    | l' =>
      match mergeStep ((flattenStep l').filter (fun c => !c.isEmptyC)) with
      | [] => .Empty
      | [c] => c
      | l₂ => .List l₂

/-- The `for item in list.iter_mut() { item.optimize(); }` loop. -/
def optimizeL : List Content → List Content
  | [] => []
  | c :: cs => c.optimize :: optimizeL cs

end

/-- Rust `VOID_ELEMENTS` from `src/html/funcs.rs`. -/
def voidElements : List String :=
  ["area", "base", "br", "col", "embed", "hr", "img", "input", "link",
   "meta", "param", "source", "track", "wbr"]

/-- The body of `Attributes::render` (`src/html/attributes.rs`): the loop
over `(key, attribute)` pairs with the running index `i`; an `Empty`
attribute prints only its key (the `continue` also skips the separator). -/
def renderAttrsFrom (total : Nat) : Nat → List (String × Attr) → String
  | _, [] => ""
  | i, (key, a) :: rest =>
    key
      ++ (match a with
          | .Empty => ""
          | _ => "=\"" ++ a.render ++ "\"" ++ (if i + 1 ≠ total then " " else ""))
      ++ renderAttrsFrom total (i + 1) rest

/-- Rust `Attributes::render` from `src/html/attributes.rs`. -/
def renderAttrs (l : List (String × Attr)) : String :=
  renderAttrsFrom l.length 0 l

mutual

/-- Rust `Content::render` from `src/html/content.rs` together with
`Element::render` from `src/html/element.rs` (the `Element` case). -/
def Content.render : Content → String
  | .Empty => ""
  | .Raw s => s
  | .Text s => encodeText s
  | .State d => d.display
  | .Element id name c attrs =>
    "<" ++ name
      ++ (if attrs.isEmpty then "" else " " ++ renderAttrs attrs)
      ++ (if voidElements.contains name then " />"
          else (match id with
                | some i => " coax-id=\"" ++ i.fmtStr ++ "\""
                | none => "")
            ++ ">" ++ Content.render c ++ "</" ++ name ++ ">")
  | .List l => renderL l

/-- The `for content in list { content.render(output) }` loop. -/
def renderL : List Content → String
  | [] => ""
  | c :: cs => Content.render c ++ renderL cs

end

/-! ### Lemmas: canonicalization preserves rendering -/


theorem encChars_append (l₁ l₂ : List Char) :
    encChars (l₁ ++ l₂) = encChars l₁ ++ encChars l₂ := by
  induction l₁ with
  | nil => simp [encChars]
  | cons c cs ih => simp [encChars, ih, String.append_assoc]

theorem render_lit (c : Content) (h : c.isLit = true) : c.render = c.litStr := by
  cases c <;> simp_all [Content.isLit, Content.render, Content.litStr, encodeText]

theorem renderL_append (l₁ l₂ : List Content) :
    renderL (l₁ ++ l₂) = renderL l₁ ++ renderL l₂ := by
  induction l₁ with
  | nil => simp [renderL]
  | cons c cs ih => simp [renderL, ih, String.append_assoc]

theorem renderL_mergeStep : ∀ l, renderL (mergeStep l) = renderL l := by
  intro l
  induction l using mergeStep.induct with
  | case1 x y rest hlit ih =>
    rw [mergeStep, if_pos hlit, renderL, ih, renderL, renderL]
    rw [render_lit x (by exact (Bool.and_eq_true _ _ ▸ hlit).1),
        render_lit y (by exact (Bool.and_eq_true _ _ ▸ hlit).2)]
    simp [Content.render, String.append_assoc]
  | case2 x y rest hlit ih =>
    rw [mergeStep, if_neg hlit, renderL, ih]
    conv_rhs => rw [renderL]
  | case3 l h1 =>
    cases l with
    | nil =>
      rw [mergeStep]
      simp
    | cons a t =>
      cases t with
      | nil =>
        rw [mergeStep]
        simp
      | cons b t' => exact absurd rfl (h1 a b t')

theorem renderL_filter_empty (l : List Content) :
    renderL (l.filter (fun c => !c.isEmptyC)) = renderL l := by
  induction l with
  | nil => simp [renderL]
  | cons c cs ih =>
    rw [List.filter_cons]
    by_cases hc : c.isEmptyC = true
    · have hcE : c = .Empty := by cases c <;> simp_all [Content.isEmptyC]
      subst hcE
      simp [renderL, ih, Content.render, String.empty_append, hc]
    · simp only [hc, Bool.not_false, if_pos]
      rw [renderL, renderL, ih]

theorem renderL_flattenStep : ∀ l, renderL (flattenStep l) = renderL l := by
  intro l
  induction l using flattenStep.induct with
  | case1 => rw [flattenStep]
  | case2 c => rw [flattenStep]
  | case3 inner c₂ rest ih =>
    rw [flattenStep, ih, renderL_append]
    simp [renderL, Content.render, String.append_assoc, String.empty_append]
  | case4 c c₂ rest h ih =>
    rw [flattenStep]
    · rw [renderL, ih]
      conv_rhs => rw [renderL]
    · exact h

theorem weight_le_of_mem {c : Content} {l : List Content} (h : c ∈ l) :
    c.weight ≤ weightL l := by
  induction l with
  | nil => cases h
  | cons a t ih =>
    rcases List.mem_cons.mp h with h' | h'
    · subst h'
      simp [weightL]
    · have := ih h'
      simp only [weightL]
      omega

theorem renderL_optimizeL_of (l : List Content)
    (H : ∀ c ∈ l, (Content.optimize c).render = c.render) :
    renderL (optimizeL l) = renderL l := by
  induction l with
  | nil => rfl
  | cons c cs ih =>
    rw [optimizeL, renderL, renderL, H c (List.mem_cons_self c cs),
      ih (fun d hd => H d (List.mem_cons_of_mem c hd))]

theorem render_optimize_aux (n : Nat) :
    ∀ c : Content, c.weight ≤ n → (Content.optimize c).render = c.render := by
  induction n with
  | zero =>
    intro c h
    have := c.weight_pos
    omega
  | succ n ih =>
    intro c h
    cases c with
    | Empty => rfl
    | Raw s => rfl
    | Text s => rfl
    | State d => rfl
    | Element id nm cc attrs =>
      have hcc : cc.weight ≤ n := by simp [Content.weight] at h; omega
      rw [Content.optimize]
      simp only [Content.render]
      rw [ih cc hcc]
    | List l =>
      have hElems : ∀ c ∈ l, (Content.optimize c).render = c.render := by
        intro c hc
        refine ih c ?_
        have h₁ := weight_le_of_mem hc
        simp [Content.weight] at h
        omega
      have hL : renderL (optimizeL l) = renderL l := renderL_optimizeL_of l hElems
      rw [Content.optimize]
      split
      · next h' =>
        simp only [Content.render]
        rw [← hL, h']
        simp only [renderL]
      · next c h' =>
        simp only [Content.render]
        rw [← hL, h']
        simp only [renderL]
        rw [String.append_empty]
      · next g1 g2 =>
        have key : renderL (mergeStep ((flattenStep (optimizeL l)).filter
            (fun c => !c.isEmptyC))) = renderL l := by
          rw [renderL_mergeStep, renderL_filter_empty, renderL_flattenStep, hL]
        split
        · next h'' =>
          simp only [Content.render]
          rw [← key, h'']
          simp only [renderL]
        · next c h'' =>
          simp only [Content.render]
          rw [← key, h'']
          simp only [renderL]
          rw [String.append_empty]
        · next q1 q2 =>
          simp only [Content.render]
          rw [key]

/-- Whether a content value is itself a `List` (used to observe that a list
directly contains another list). -/
def Content.isListC : Content → Bool
  | .List _ => true
  | _ => false

/-- Whether a content list contains two adjacent literal (`Text`/`Raw`)
segments. -/
def hasAdjacentLits : List Content → Bool
  | x :: y :: rest => (x.isLit && y.isLit) || hasAdjacentLits (y :: rest)
  | _ => false

/-- C10: canonicalization preserves the rendered HTML — rendering a content
tree after `optimize` yields exactly the same string as rendering it
before. -/
theorem C10_optimize_preserves_render (c : Content) :
    (Content.optimize c).render = c.render :=
  render_optimize_aux c.weight c le_rfl

/-- C4: the claim fails on the code.  `optimize` leaves two adjacent literal
segments unmerged when three literals are adjacent (the merging loop advances
its index unconditionally after a merge), and leaves a list directly inside a
list when the inner list sits in the final position (the flattening loop stops
one element early).  This theorem evaluates `optimize` at both failing
inputs. -/
theorem C4_optimize_misses_canonical_form :
    Content.optimize (.List [.Text "a", .Text "b", .Text "c"])
        = .List [.Raw "ab", .Text "c"]
      ∧ hasAdjacentLits [.Raw "ab", .Text "c"] = true
      ∧ Content.optimize (.List [.Text "x", .List [.Text "a", .State ⟨"v", "i"⟩]])
        = .List [.Text "x", .List [.Text "a", .State ⟨"v", "i"⟩]]
      ∧ ([Content.Text "x", Content.List [.Text "a", .State ⟨"v", "i"⟩]].any
          Content.isListC) = true := by
  refine ⟨?_, by simp [hasAdjacentLits, Content.isLit], ?_,
    by simp [Content.isListC]⟩
  · simp [Content.optimize, optimizeL, flattenStep, mergeStep, Content.isLit,
      Content.isEmptyC, Content.litStr, encodeText, encChars, escTextChar]
  · simp [Content.optimize, optimizeL, flattenStep, mergeStep, Content.isLit,
      Content.isEmptyC]

/-! ### The reactivity compiler (`src/reactive_js.rs`, `Content::reactivity`) -/

/-- Rust `reactive_js::Content`: one template slot, either literal text or an index
into the descriptor's state list. -/
inductive RContent where
  | Text (s : String)
  | Var (idx : Nat)
deriving DecidableEq, Repr

/-- Rust `ElementContentReactivityDescriptor` from `src/reactive_js.rs`.  The Rust
struct stores references to `StateDescriptor`s; we store them by value. -/
structure ElementContentReactivityDescriptor where
  element_id : RandomId
  child_node_idx : Option Nat
  state_descriptors : List StateDescriptor
  content : List RContent
deriving DecidableEq, Repr

/-- Rust `ElementAttributeReactivityDescriptor` from `src/reactive_js.rs`. -/
structure ElementAttributeReactivityDescriptor where
  element_id : RandomId
  attribute_key : String
  state_descriptors : List StateDescriptor
  content : List RContent
deriving DecidableEq, Repr

/-- Rust `Reactivity` from `src/reactive_js.rs`.  The `state_field_initial_values`
`HashMap` is modelled as an association list with replace-on-insert. -/
structure Reactivity where
  element_content_descriptors : List ElementContentReactivityDescriptor
  element_attribute_descriptors : List ElementAttributeReactivityDescriptor
  state_field_initial_values : List (String × String)
deriving DecidableEq, Repr

/-- Rust `HashMap::insert`: replace the value when the key is present, otherwise
append the pair. -/
def insertAssoc : List (String × String) → String → String → List (String × String)
  | [], k, v => [(k, v)]
  | (k', v') :: rest, k, v =>
    if k' = k then (k, v) :: rest else (k', v') :: insertAssoc rest k v

/-- Rust `Reactivity::register_state`. -/
def Reactivity.registerState (r : Reactivity) (d : StateDescriptor) : Reactivity :=
  { r with state_field_initial_values :=
      insertAssoc r.state_field_initial_values d.state_id d.display }

/-- Rust `Reactivity::add_element_content`: register every state of the descriptor,
then push the descriptor. -/
def Reactivity.addElementContent (r : Reactivity)
    (d : ElementContentReactivityDescriptor) : Reactivity :=
  let r := d.state_descriptors.foldl Reactivity.registerState r
  { r with element_content_descriptors := r.element_content_descriptors ++ [d] }

/-- Rust `Reactivity::add_element_attribute`. -/
def Reactivity.addElementAttribute (r : Reactivity)
    (d : ElementAttributeReactivityDescriptor) : Reactivity :=
  let r := d.state_descriptors.foldl Reactivity.registerState r
  { r with element_attribute_descriptors := r.element_attribute_descriptors ++ [d] }

/-- Rust `Content::state`: the state descriptor of a `State` item. -/
def Content.stateDesc : Content → Option StateDescriptor
  | .State d => some d
  | _ => none

/-- The `is_text` predicate inside `Content::reactivity`:
`matches!(content, Content::Raw(_) | Content::Text(_) | Content::State(_))`. -/
def Content.isTextG : Content → Bool
  | .Raw _ => true
  | .Text _ => true
  | .State _ => true
  | _ => false

/-- Rust `states.iter().position(|s| *s == descriptor)`: index of the first
occurrence (total; the source `expect`s the element to be present). -/
def firstIdx : List StateDescriptor → StateDescriptor → Nat
  | [], _ => 0
  | d' :: rest, d => if d' = d then 0 else 1 + firstIdx rest d

/-- Rust `add_group` from `Content::reactivity` (`src/html/content.rs`): with no
element id it does nothing; otherwise it collects the group's state
descriptors in slot order (`filter_map`, duplicates preserved), maps each
group item to a template slot (`Raw` passes through, `Text` is
script-escaped, `State` becomes a variable referencing the first occurrence
of its descriptor), and pushes the resulting content descriptor addressed at
child node `group_id`. -/
def addGroup (r : Reactivity) (group : List Content) (groupId : Nat)
    (elementId : Option RandomId) : Reactivity :=
  match elementId with
  | none => r
  | some id =>
    let states := group.filterMap Content.stateDesc
    r.addElementContent
      { element_id := id
        child_node_idx := some groupId
        state_descriptors := states
        content := group.map fun c =>
          match c with
          | .Raw t => RContent.Text t
          | .Text t => RContent.Text (encodeScriptSingleQuotedText t)
          | .State d => RContent.Var (firstIdx states d)
          | _ => RContent.Var 0 }

/-- Rust `AttributeValue::state`. -/
def AttrValue.stateDesc : AttrValue → Option StateDescriptor
  | .State d => some d
  | _ => none

/-- Rust `Attribute::reactivity` from `src/html/attribute.rs` (the same compilation
scheme as `add_group`, over the attribute key; a `Closure` inside a list hits
`todo!()` in the source and is never reached by our claims). -/
def Attr.reactivity (a : Attr) (elementId : Option RandomId) (key : String)
    (r : Reactivity) : Reactivity :=
  match a with
  | .Value (.State d) =>
    match elementId with
    | none => r
    | some id =>
      r.addElementAttribute
        { element_id := id, attribute_key := key
          state_descriptors := [d], content := [RContent.Var 0] }
  | .List l =>
    match elementId with
    | none => r
    | some id =>
      let states := l.filterMap AttrValue.stateDesc
      r.addElementAttribute
        { element_id := id
          attribute_key := key
          state_descriptors := states
          content := l.map fun v =>
            match v with
            | .Raw t => RContent.Text t
            | .Text t => RContent.Text (encodeScriptSingleQuotedText t)
            | .State d => RContent.Var (firstIdx states d)
            | .Closure _ => RContent.Var 0 }
  | _ => r

/-- Rust `Attributes::reactivity`: fold `Attribute::reactivity` over the pairs. -/
def attrsReactivity (attrs : List (String × Attr)) (elementId : Option RandomId)
    (r : Reactivity) : Reactivity :=
  attrs.foldl (fun r ka => Attr.reactivity ka.2 elementId ka.1 r) r

mutual

/-- Rust `Content::reactivity` from `src/html/content.rs`: a `State` alone emits a
whole-element descriptor; an `Element` recurses under its own id (content
first, then attributes, as `Element::reactivity` does); a `List` is walked by
the grouping loop; everything else emits nothing. -/
def Content.reactivity : Content → Option RandomId → Reactivity → Reactivity
  | .List l, elementId, r => reactivityLoop elementId l none 0 r
  | .State d, elementId, r =>
    match elementId with
    | none => r
    | some id =>
      r.addElementContent
        { element_id := id, child_node_idx := none
          state_descriptors := [d], content := [RContent.Var 0] }
  | .Element id _nm c attrs, _, r =>
    attrsReactivity attrs id (Content.reactivity c id r)
  | .Empty, _, r => r
  | .Raw _, _, r => r
  | .Text _, _, r => r
termination_by c _ _ => c.weight
decreasing_by
  all_goals simp only [Content.weight, weightL]
  all_goals omega

/-- The grouping loop of `Content::reactivity`: contiguous runs of
`Raw`/`Text`/`State` (the `is_text` items) accumulate into a pending group;
reaching a non-text item or the end of the list flushes the pending group via
`add_group` at child position `group_id - 1`.  A non-text item bumps the
position counter, and only an `Element` recurses (a nested `List` is
ignored: the source assumes lists were already flattened).  The `is_text`
test and the inner `Option` matches of the source are expanded into one arm
per constructor and group state. -/
def reactivityLoop (elementId : Option RandomId) :
    List Content → Option (List Content) → Nat → Reactivity → Reactivity
  | [], some g, groupId, r => addGroup r g (groupId - 1) elementId
  | [], none, _, r => r
  | .Raw s :: rest, some g, groupId, r =>
    reactivityLoop elementId rest (some (g ++ [.Raw s])) groupId r
  | .Raw s :: rest, none, groupId, r =>
    reactivityLoop elementId rest (some [.Raw s]) (groupId + 1) r
  | .Text s :: rest, some g, groupId, r =>
    reactivityLoop elementId rest (some (g ++ [.Text s])) groupId r
  | .Text s :: rest, none, groupId, r =>
    reactivityLoop elementId rest (some [.Text s]) (groupId + 1) r
  | .State d :: rest, some g, groupId, r =>
    reactivityLoop elementId rest (some (g ++ [.State d])) groupId r
  | .State d :: rest, none, groupId, r =>
    reactivityLoop elementId rest (some [.State d]) (groupId + 1) r
  | .Element i nm cc ats :: rest, some g, groupId, r =>
    reactivityLoop elementId rest none (groupId + 1)
      (Content.reactivity (.Element i nm cc ats) none
        (addGroup r g (groupId - 1) elementId))
  | .Element i nm cc ats :: rest, none, groupId, r =>
    reactivityLoop elementId rest none (groupId + 1)
      (Content.reactivity (.Element i nm cc ats) none r)
  | .Empty :: rest, some g, groupId, r =>
    reactivityLoop elementId rest none (groupId + 1)
      (addGroup r g (groupId - 1) elementId)
  | .Empty :: rest, none, groupId, r =>
    reactivityLoop elementId rest none (groupId + 1) r
  | .List l' :: rest, some g, groupId, r =>
    reactivityLoop elementId rest none (groupId + 1)
      (addGroup r g (groupId - 1) elementId)
  | .List l' :: rest, none, groupId, r =>
    reactivityLoop elementId rest none (groupId + 1) r
termination_by l _ _ _ => 1 + weightL l
decreasing_by
  all_goals simp only [Content.weight, weightL]
  all_goals omega

end

/-- The state-id array of `on_state_change` (`src/reactive_js.rs`): each id
followed by `','` except the last, which is closed with a lone quote; with no
states the loop body never runs and the bracket is left unclosed. -/
def idsPart : List StateDescriptor → String
  | [] => ""
  | [d] => d.state_id ++ "'"
  | d :: rest => d.state_id ++ "','" ++ idsPart rest

/-- The argument list of `on_state_change`: `v0,v1,...`. -/
def varsPart (n : Nat) : String :=
  String.intercalate "," ((List.range n).map fun i => "v" ++ toString i)

/-- Rust `on_state_change` from `src/reactive_js.rs`. -/
def onStateChangeStr (ds : List StateDescriptor) (elementId : RandomId) : String :=
  "window.Coaxial.onStateChange(['" ++ idsPart ds ++ "], (" ++ varsPart ds.length
    ++ ") => \x7b if (el = document.querySelector('[coax-id=\"" ++ elementId.fmtStr
    ++ "\"]')) "

/-- Rust `reactive_js::Content::script`. -/
def RContent.scriptStr : RContent → String
  | .Text t => "'" ++ t ++ "'"
  | .Var i => "v" ++ toString i

/-- The joined content expression of a descriptor script: a single slot is
emitted alone, otherwise a JS array of slots joined with `''`. -/
def joinedContentStr : List RContent → String
  | [x] => x.scriptStr
  | l => "[" ++ String.intercalate "," (l.map RContent.scriptStr) ++ "].join('')"

/-- Rust `ElementContentReactivityDescriptor::script` (release build: no trailing
debug newline). -/
def ElementContentReactivityDescriptor.scriptStr
    (d : ElementContentReactivityDescriptor) : String :=
  onStateChangeStr d.state_descriptors d.element_id
    ++ (match d.child_node_idx with
        | some i => "if (el = el.childNodes[" ++ toString i ++ "]) "
        | none => "")
    ++ "el.textContent = " ++ joinedContentStr d.content ++ "; \x7d);"

/-- Rust `ElementAttributeReactivityDescriptor::script` (release build). -/
def ElementAttributeReactivityDescriptor.scriptStr
    (d : ElementAttributeReactivityDescriptor) : String :=
  onStateChangeStr d.state_descriptors d.element_id
    ++ "el.setAttribute('" ++ d.attribute_key ++ "', "
    ++ joinedContentStr d.content ++ "); \x7d);"

/-- Rust `Reactivity::state_field_initial_values_script`. -/
def initialValuesScript (l : List (String × String)) : String :=
  String.join (l.map fun kv =>
    "window.Coaxial.state['" ++ kv.1 ++ "'] = '" ++ kv.2 ++ "';")

/-- Rust `Reactivity::script`: content descriptors, then attribute descriptors,
then the initial-value seeding. -/
def Reactivity.script (r : Reactivity) : String :=
  String.join (r.element_content_descriptors.map
      ElementContentReactivityDescriptor.scriptStr)
    ++ String.join (r.element_attribute_descriptors.map
      ElementAttributeReactivityDescriptor.scriptStr)
    ++ initialValuesScript r.state_field_initial_values

/-! ### Claims about the reactivity compiler -/

theorem registerStates_ecd (ds : List StateDescriptor) (r : Reactivity) :
    (ds.foldl Reactivity.registerState r).element_content_descriptors
      = r.element_content_descriptors := by
  induction ds generalizing r with
  | nil => rfl
  | cons d rest ih => rw [List.foldl_cons, ih]; rfl

/-- C5 counterexample: compiling a group in which the same state id occupies
two template slots yields a descriptor whose dependency-id list contains that
id twice — `states` is collected with `filter_map`, which keeps duplicates.
The claim's no-duplicates part is false. -/
theorem C5_counterexample_duplicate_deps :
    (Content.reactivity (.List [.State ⟨"v", "s1"⟩, .State ⟨"v", "s1"⟩])
        (some ⟨['a', 'a', 'a', 'a', 'b', 'b', 'b', 'b']⟩)
        ⟨[], [], []⟩).element_content_descriptors.map
        (fun dd => dd.state_descriptors.map StateDescriptor.state_id)
      = [["s1", "s1"]]
    ∧ ¬ (["s1", "s1"] : List String).Nodup := by
  constructor
  · simp only [Content.reactivity, reactivityLoop, addGroup,
      Reactivity.addElementContent, Reactivity.registerState, insertAssoc,
      firstIdx, Content.isTextG, Content.stateDesc, List.foldl_cons,
      List.foldl_nil, List.filterMap_cons, List.filterMap_nil, List.map_cons,
      List.map_nil, List.append_nil, List.nil_append, List.cons_append]
  · decide

theorem registerStates_ead (ds : List StateDescriptor) (r : Reactivity) :
    (ds.foldl Reactivity.registerState r).element_attribute_descriptors
      = r.element_attribute_descriptors := by
  induction ds generalizing r with
  | nil => rfl
  | cons d rest ih => rw [List.foldl_cons, ih]; rfl

theorem addElementContent_ecd (r : Reactivity)
    (dd : ElementContentReactivityDescriptor) :
    (r.addElementContent dd).element_content_descriptors
      = r.element_content_descriptors ++ [dd] := by
  simp [Reactivity.addElementContent, registerStates_ecd]

theorem addElementContent_ead (r : Reactivity)
    (dd : ElementContentReactivityDescriptor) :
    (r.addElementContent dd).element_attribute_descriptors
      = r.element_attribute_descriptors := by
  simp [Reactivity.addElementContent, registerStates_ead]

theorem addElementAttribute_ead (r : Reactivity)
    (dd : ElementAttributeReactivityDescriptor) :
    (r.addElementAttribute dd).element_attribute_descriptors
      = r.element_attribute_descriptors ++ [dd] := by
  simp [Reactivity.addElementAttribute, registerStates_ead]

theorem addElementAttribute_ecd (r : Reactivity)
    (dd : ElementAttributeReactivityDescriptor) :
    (r.addElementAttribute dd).element_content_descriptors
      = r.element_content_descriptors := by
  simp [Reactivity.addElementAttribute, registerStates_ecd]

/-- Shape of a content descriptor produced from a group of content items:
one template slot per item, the dependency list is the slot-ordered
`filter_map` of the items' state descriptors (duplicates preserved), and
every state slot's variable references the first occurrence of its
descriptor. -/
def groupShaped (dd : ElementContentReactivityDescriptor) : Prop :=
  ∃ group : List Content,
    dd.content.length = group.length
    ∧ dd.state_descriptors = group.filterMap Content.stateDesc
    ∧ ∀ i d', group.get? i = some (.State d') →
        dd.content.get? i
          = some (.Var (firstIdx (group.filterMap Content.stateDesc) d'))

/-- The same shape for an attribute descriptor, over its attribute-value
list. -/
def attrShaped (dd : ElementAttributeReactivityDescriptor) : Prop :=
  ∃ l : List AttrValue,
    dd.content.length = l.length
    ∧ dd.state_descriptors = l.filterMap AttrValue.stateDesc
    ∧ ∀ i d', l.get? i = some (.State d') →
        dd.content.get? i
          = some (.Var (firstIdx (l.filterMap AttrValue.stateDesc) d'))

/-- Every descriptor held by a `Reactivity` has the compiled shape. -/
def descriptorsShaped (r : Reactivity) : Prop :=
  (∀ dd ∈ r.element_content_descriptors, groupShaped dd)
  ∧ (∀ dd ∈ r.element_attribute_descriptors, attrShaped dd)

theorem addGroup_append (r : Reactivity) (group : List Content) (gid : Nat)
    (eid : RandomId) :
    ∃ dd : ElementContentReactivityDescriptor,
      (addGroup r group gid (some eid)).element_content_descriptors
          = r.element_content_descriptors ++ [dd]
        ∧ dd.content.length = group.length
        ∧ dd.state_descriptors = group.filterMap Content.stateDesc
        ∧ ∀ i d', group.get? i = some (.State d') →
            dd.content.get? i
              = some (.Var (firstIdx (group.filterMap Content.stateDesc) d')) := by
  refine ⟨{ element_id := eid, child_node_idx := some gid,
            state_descriptors := group.filterMap Content.stateDesc,
            content := group.map fun c =>
              match c with
              | .Raw t => RContent.Text t
              | .Text t => RContent.Text (encodeScriptSingleQuotedText t)
              | .State d => RContent.Var
                  (firstIdx (group.filterMap Content.stateDesc) d)
              | _ => RContent.Var 0 }, ?_, ?_, rfl, ?_⟩
  · simp only [addGroup]
    exact addElementContent_ecd r _
  · simp
  · intro i d' h
    simp only [List.get?_eq_getElem?, List.getElem?_map] at h ⊢
    rw [h]
    rfl

theorem addGroup_ead (r : Reactivity) (group : List Content) (gid : Nat)
    (eid : Option RandomId) :
    (addGroup r group gid eid).element_attribute_descriptors
      = r.element_attribute_descriptors := by
  cases eid with
  | none => rfl
  | some e =>
    simp only [addGroup]
    exact addElementContent_ead r _

theorem addGroup_shaped (r : Reactivity) (group : List Content) (gid : Nat)
    (eid : Option RandomId) (h : descriptorsShaped r) :
    descriptorsShaped (addGroup r group gid eid) := by
  cases eid with
  | none => exact h
  | some e =>
    obtain ⟨dd, heq, h1, h2, h3⟩ := addGroup_append r group gid e
    constructor
    · intro x hx
      rw [heq] at hx
      rcases List.mem_append.mp hx with hx | hx
      · exact h.1 x hx
      · rw [List.mem_singleton.mp hx]
        exact ⟨group, h1, h2, h3⟩
    · intro x hx
      rw [addGroup_ead] at hx
      exact h.2 x hx

theorem stateReactivity_ecd (d : StateDescriptor) (eid : RandomId)
    (r : Reactivity) :
    (Content.reactivity (.State d) (some eid) r).element_content_descriptors
      = r.element_content_descriptors
        ++ [⟨eid, none, [d], [RContent.Var 0]⟩] := by
  simp only [Content.reactivity]
  exact addElementContent_ecd r _

theorem singleState_groupShaped (eid : RandomId) (idx : Option Nat)
    (d : StateDescriptor) :
    groupShaped ⟨eid, idx, [d], [RContent.Var 0]⟩ := by
  refine ⟨[.State d], by simp, by simp [Content.stateDesc], ?_⟩
  intro i d' h
  cases i with
  | zero =>
    simp only [List.get?_eq_getElem?] at h ⊢
    simp at h
    subst h
    simp [Content.stateDesc, firstIdx]
  | succ n => simp [List.get?_eq_getElem?] at h

theorem attrValueList_append (l : List AttrValue) (eid : RandomId)
    (key : String) (r : Reactivity) :
    ∃ dd : ElementAttributeReactivityDescriptor,
      (Attr.reactivity (.List l) (some eid) key r).element_attribute_descriptors
          = r.element_attribute_descriptors ++ [dd]
        ∧ dd.content.length = l.length
        ∧ dd.state_descriptors = l.filterMap AttrValue.stateDesc
        ∧ ∀ i d', l.get? i = some (.State d') →
            dd.content.get? i
              = some (.Var (firstIdx (l.filterMap AttrValue.stateDesc) d')) := by
  refine ⟨{ element_id := eid, attribute_key := key,
            state_descriptors := l.filterMap AttrValue.stateDesc,
            content := l.map fun v =>
              match v with
              | .Raw t => RContent.Text t
              | .Text t => RContent.Text (encodeScriptSingleQuotedText t)
              | .State d => RContent.Var
                  (firstIdx (l.filterMap AttrValue.stateDesc) d)
              | .Closure _ => RContent.Var 0 }, ?_, ?_, rfl, ?_⟩
  · simp only [Attr.reactivity]
    exact addElementAttribute_ead r _
  · simp
  · intro i d' h
    simp only [List.get?_eq_getElem?, List.getElem?_map] at h ⊢
    rw [h]
    rfl

theorem attrValueState_append (d : StateDescriptor) (eid : RandomId)
    (key : String) (r : Reactivity) :
    (Attr.reactivity (.Value (.State d)) (some eid) key
        r).element_attribute_descriptors
      = r.element_attribute_descriptors
        ++ [⟨eid, key, [d], [RContent.Var 0]⟩] := by
  simp only [Attr.reactivity]
  exact addElementAttribute_ead r _

theorem singleState_attrShaped (eid : RandomId) (key : String)
    (d : StateDescriptor) :
    attrShaped ⟨eid, key, [d], [RContent.Var 0]⟩ := by
  refine ⟨[.State d], by simp, by simp [AttrValue.stateDesc], ?_⟩
  intro i d' h
  cases i with
  | zero =>
    simp only [List.get?_eq_getElem?] at h ⊢
    simp at h
    subst h
    simp [AttrValue.stateDesc, firstIdx]
  | succ n => simp [List.get?_eq_getElem?] at h

theorem attrReactivity_ecd (a : Attr) (eid : Option RandomId) (key : String)
    (r : Reactivity) :
    (Attr.reactivity a eid key r).element_content_descriptors
      = r.element_content_descriptors := by
  cases a with
  | Empty => rfl
  | Value v =>
    cases v with
    | State d =>
      cases eid with
      | none => rfl
      | some e =>
        simp only [Attr.reactivity]
        exact addElementAttribute_ecd r _
    | Raw s => rfl
    | Text s => rfl
    | Closure c => rfl
  | List l =>
    cases eid with
    | none => rfl
    | some e =>
      simp only [Attr.reactivity]
      exact addElementAttribute_ecd r _

theorem attrReactivity_shaped (a : Attr) (eid : Option RandomId) (key : String)
    (r : Reactivity) (h : descriptorsShaped r) :
    descriptorsShaped (Attr.reactivity a eid key r) := by
  refine ⟨fun x hx => h.1 x (by rwa [attrReactivity_ecd] at hx), ?_⟩
  cases a with
  | Empty => exact h.2
  | Value v =>
    cases v with
    | State d =>
      cases eid with
      | none => exact h.2
      | some e =>
        intro x hx
        rw [attrValueState_append] at hx
        rcases List.mem_append.mp hx with hx | hx
        · exact h.2 x hx
        · rw [List.mem_singleton.mp hx]
          exact singleState_attrShaped e key d
    | Raw s => exact h.2
    | Text s => exact h.2
    | Closure c => exact h.2
  | List l =>
    cases eid with
    | none => exact h.2
    | some e =>
      intro x hx
      obtain ⟨dd, heq, h1, h2, h3⟩ := attrValueList_append l e key r
      rw [heq] at hx
      rcases List.mem_append.mp hx with hx | hx
      · exact h.2 x hx
      · rw [List.mem_singleton.mp hx]
        exact ⟨l, h1, h2, h3⟩

theorem attrsReactivity_shaped (attrs : List (String × Attr))
    (eid : Option RandomId) (r : Reactivity) (h : descriptorsShaped r) :
    descriptorsShaped (attrsReactivity attrs eid r) := by
  induction attrs generalizing r with
  | nil => exact h
  | cons ka rest ih =>
    rw [attrsReactivity, List.foldl_cons]
    exact ih _ (attrReactivity_shaped ka.2 eid ka.1 r h)

theorem shaped_aux (n : Nat) :
    (∀ (c : Content) (eid : Option RandomId) (r : Reactivity),
        c.weight ≤ n → descriptorsShaped r →
        descriptorsShaped (Content.reactivity c eid r))
    ∧ (∀ (l : List Content) (group : Option (List Content)) (gid : Nat)
        (eid : Option RandomId) (r : Reactivity),
        weightL l < n → descriptorsShaped r →
        descriptorsShaped (reactivityLoop eid l group gid r)) := by
  induction n with
  | zero =>
    constructor
    · intro c _ _ hw _
      have := c.weight_pos
      omega
    · intro l _ _ _ _ hw _
      omega
  | succ n ih =>
    constructor
    · intro c eid r hw hr
      cases c with
      | Empty => simpa only [Content.reactivity] using hr
      | Raw s => simpa only [Content.reactivity] using hr
      | Text s => simpa only [Content.reactivity] using hr
      | State d =>
        cases eid with
        | none => simpa only [Content.reactivity] using hr
        | some e =>
          refine ⟨?_, fun x hx => hr.2 x (by
            simp only [Content.reactivity] at hx
            rwa [addElementContent_ead] at hx)⟩
          intro x hx
          rw [stateReactivity_ecd] at hx
          rcases List.mem_append.mp hx with hx | hx
          · exact hr.1 x hx
          · rw [List.mem_singleton.mp hx]
            exact singleState_groupShaped e none d
      | Element id nm cc ats =>
        simp only [Content.reactivity]
        refine attrsReactivity_shaped ats id _ (ih.1 cc id r ?_ hr)
        simp only [Content.weight] at hw
        omega
      | List l =>
        simp only [Content.reactivity]
        refine ih.2 l none 0 eid r ?_ hr
        simp only [Content.weight] at hw
        omega
    · intro l group gid eid r hw hr
      cases l with
      | nil =>
        cases group with
        | none => simpa only [reactivityLoop] using hr
        | some g =>
          simpa only [reactivityLoop] using
            addGroup_shaped r g (gid - 1) eid hr
      | cons c rest =>
        have hwr : weightL rest < n := by
          have := c.weight_pos
          simp only [weightL] at hw
          omega
        have hwc : c.weight ≤ n := by
          simp only [weightL] at hw
          omega
        cases c with
        | Raw s =>
          cases group with
          | some g =>
            simpa only [reactivityLoop] using ih.2 rest _ gid eid r hwr hr
          | none =>
            simpa only [reactivityLoop] using
              ih.2 rest _ (gid + 1) eid r hwr hr
        | Text s =>
          cases group with
          | some g =>
            simpa only [reactivityLoop] using ih.2 rest _ gid eid r hwr hr
          | none =>
            simpa only [reactivityLoop] using
              ih.2 rest _ (gid + 1) eid r hwr hr
        | State d =>
          cases group with
          | some g =>
            simpa only [reactivityLoop] using ih.2 rest _ gid eid r hwr hr
          | none =>
            simpa only [reactivityLoop] using
              ih.2 rest _ (gid + 1) eid r hwr hr
        | Element i nm cc ats =>
          cases group with
          | some g =>
            simpa only [reactivityLoop] using
              ih.2 rest none (gid + 1) eid _ hwr
                (ih.1 (.Element i nm cc ats) none _ hwc
                  (addGroup_shaped r g (gid - 1) eid hr))
          | none =>
            simpa only [reactivityLoop] using
              ih.2 rest none (gid + 1) eid _ hwr
                (ih.1 (.Element i nm cc ats) none _ hwc hr)
        | Empty =>
          cases group with
          | some g =>
            simpa only [reactivityLoop] using
              ih.2 rest none (gid + 1) eid _ hwr
                (addGroup_shaped r g (gid - 1) eid hr)
          | none =>
            simpa only [reactivityLoop] using
              ih.2 rest none (gid + 1) eid r hwr hr
        | List l' =>
          cases group with
          | some g =>
            simpa only [reactivityLoop] using
              ih.2 rest none (gid + 1) eid _ hwr
                (addGroup_shaped r g (gid - 1) eid hr)
          | none =>
            simpa only [reactivityLoop] using
              ih.2 rest none (gid + 1) eid r hwr hr

/-- C5 (amended): every reactivity descriptor the compiler emits — content
descriptors from `add_group` and from a lone `State`, and attribute
descriptors from `Attribute::reactivity`'s single-`State` and list cases —
has one template slot per item of the content list it was compiled from; its
dependency list is the slot-ordered `filter_map` of that list's state
descriptors, one entry per state slot (so an id occupying several slots is
repeated); and every state slot's variable references the first occurrence
of its descriptor.  The first two conjuncts state the invariant for the
whole compiler: starting from the empty `Reactivity`, every walk emits only
descriptors of this shape; the remaining conjuncts pin down each emission
site exactly. -/
theorem C5_descriptor_shape :
    descriptorsShaped ⟨[], [], []⟩
    ∧ (∀ (c : Content) (eid : Option RandomId) (r : Reactivity),
        descriptorsShaped r → descriptorsShaped (Content.reactivity c eid r))
    ∧ (∀ (group : List Content) (gid : Nat) (eid : RandomId) (r : Reactivity),
        ∃ dd : ElementContentReactivityDescriptor,
          (addGroup r group gid (some eid)).element_content_descriptors
              = r.element_content_descriptors ++ [dd]
            ∧ dd.content.length = group.length
            ∧ dd.state_descriptors = group.filterMap Content.stateDesc
            ∧ ∀ i d', group.get? i = some (.State d') →
                dd.content.get? i
                  = some (.Var (firstIdx (group.filterMap Content.stateDesc) d')))
    ∧ (∀ (d : StateDescriptor) (eid : RandomId) (r : Reactivity),
        (Content.reactivity (.State d) (some eid) r).element_content_descriptors
          = r.element_content_descriptors
            ++ [⟨eid, none, [d], [RContent.Var 0]⟩])
    ∧ (∀ (d : StateDescriptor) (eid : RandomId) (key : String) (r : Reactivity),
        (Attr.reactivity (.Value (.State d)) (some eid) key
            r).element_attribute_descriptors
          = r.element_attribute_descriptors
            ++ [⟨eid, key, [d], [RContent.Var 0]⟩])
    ∧ (∀ (l : List AttrValue) (eid : RandomId) (key : String) (r : Reactivity),
        ∃ dd : ElementAttributeReactivityDescriptor,
          (Attr.reactivity (.List l) (some eid) key
              r).element_attribute_descriptors
              = r.element_attribute_descriptors ++ [dd]
            ∧ dd.content.length = l.length
            ∧ dd.state_descriptors = l.filterMap AttrValue.stateDesc
            ∧ ∀ i d', l.get? i = some (.State d') →
                dd.content.get? i
                  = some (.Var (firstIdx (l.filterMap AttrValue.stateDesc) d'))) := by
  refine ⟨⟨by simp, by simp⟩,
    fun c eid r hr => (shaped_aux c.weight).1 c eid r le_rfl hr,
    fun group gid eid r => addGroup_append r group gid eid,
    stateReactivity_ecd, attrValueState_append,
    fun l eid key r => attrValueList_append l eid key r⟩

/-- C5 witness: the invariant conjunct applied at a concrete compilation,
the shaped-start hypothesis discharged by evaluation. -/
theorem C5_descriptor_shape_witness :
    descriptorsShaped (Content.reactivity
      (.List [.State ⟨"v", "s1"⟩, .Text "t"])
      (some ⟨['a', 'a', 'a', 'a', 'b', 'b', 'b', 'b']⟩) ⟨[], [], []⟩) :=
  C5_descriptor_shape.2.1 (.List [.State ⟨"v", "s1"⟩, .Text "t"])
    (some ⟨['a', 'a', 'a', 'a', 'b', 'b', 'b', 'b']⟩) ⟨[], [], []⟩
    ⟨by simp, by simp⟩

/-- C6 counterexample: with an element id present, compiling the singleton
list `[Text "a"]` emits one (child-node-indexed) descriptor and a non-empty
script, while compiling the unwrapped `Text "a"` emits nothing — the two
outputs differ, refuting the claim's singleton half. -/
theorem C6_counterexample_singleton :
    Content.reactivity (.Text "a")
        (some ⟨['a', 'a', 'a', 'a', 'b', 'b', 'b', 'b']⟩) ⟨[], [], []⟩
      = ⟨[], [], []⟩
    ∧ (Content.reactivity (.List [.Text "a"])
        (some ⟨['a', 'a', 'a', 'a', 'b', 'b', 'b', 'b']⟩)
        ⟨[], [], []⟩).element_content_descriptors.length = 1
    ∧ Reactivity.script (Content.reactivity (.List [.Text "a"])
        (some ⟨['a', 'a', 'a', 'a', 'b', 'b', 'b', 'b']⟩) ⟨[], [], []⟩)
      ≠ Reactivity.script (Content.reactivity (.Text "a")
        (some ⟨['a', 'a', 'a', 'a', 'b', 'b', 'b', 'b']⟩) ⟨[], [], []⟩) := by
  refine ⟨by simp only [Content.reactivity], ?_, ?_⟩
  · simp only [Content.reactivity, reactivityLoop, addGroup,
      Reactivity.addElementContent, Reactivity.registerState, insertAssoc,
      firstIdx, Content.isTextG, Content.stateDesc, List.foldl_cons,
      List.foldl_nil, List.filterMap_cons, List.filterMap_nil, List.map_cons,
      List.map_nil, List.append_nil, List.nil_append, List.cons_append]
    rfl
  · simp only [Content.reactivity, reactivityLoop, addGroup,
      Reactivity.addElementContent, Reactivity.registerState, insertAssoc,
      firstIdx, Content.isTextG, Content.stateDesc, List.foldl_cons,
      List.foldl_nil, List.filterMap_cons, List.filterMap_nil, List.map_cons,
      List.map_nil, List.append_nil, List.nil_append, List.cons_append,
      Reactivity.script, ElementContentReactivityDescriptor.scriptStr,
      onStateChangeStr, idsPart, varsPart, joinedContentStr, RContent.scriptStr,
      initialValuesScript, encodeScriptSingleQuotedText, encScriptChars,
      escScriptChar, RandomId.fmtStr]
    decide

theorem listTextSome_ecd (s : String) (eid : RandomId) (r : Reactivity) :
    (Content.reactivity (.List [.Text s]) (some eid)
        r).element_content_descriptors
      = r.element_content_descriptors
        ++ [⟨eid, some 0, [],
             [RContent.Text (encodeScriptSingleQuotedText s)]⟩] := by
  simp only [Content.reactivity, reactivityLoop, addGroup, Nat.add_sub_cancel,
    List.filterMap_cons, List.filterMap_nil, List.map_cons, List.map_nil,
    Content.stateDesc]
  exact addElementContent_ecd r _

theorem listRawSome_ecd (s : String) (eid : RandomId) (r : Reactivity) :
    (Content.reactivity (.List [.Raw s]) (some eid)
        r).element_content_descriptors
      = r.element_content_descriptors
        ++ [⟨eid, some 0, [], [RContent.Text s]⟩] := by
  simp only [Content.reactivity, reactivityLoop, addGroup, Nat.add_sub_cancel,
    List.filterMap_cons, List.filterMap_nil, List.map_cons, List.map_nil,
    Content.stateDesc]
  exact addElementContent_ecd r _

theorem listStateSome_ecd (d : StateDescriptor) (eid : RandomId)
    (r : Reactivity) :
    (Content.reactivity (.List [.State d]) (some eid)
        r).element_content_descriptors
      = r.element_content_descriptors
        ++ [⟨eid, some 0, [d], [RContent.Var 0]⟩] := by
  simp only [Content.reactivity, reactivityLoop, addGroup, Nat.add_sub_cancel,
    List.filterMap_cons, List.filterMap_nil, List.map_cons, List.map_nil,
    Content.stateDesc, firstIdx, if_pos rfl]
  exact addElementContent_ecd r _

/-- C6 (amended): compiling an empty list emits no descriptor, and the
script of an untouched `Reactivity` is empty.  A singleton list compiles
exactly like its unwrapped sole element when that element is an `Element`
(it carries its own id) or `Empty`, and — with no element id in scope — also
for `Text`, `Raw` and `State`.  When an element id is present, a `Text`,
`Raw` or `State` singleton list emits a descriptor addressed at child node
0, which the unwrapped element does not: unwrapped `Text`/`Raw` emit
nothing, and an unwrapped `State` emits a whole-element descriptor
(`child_node_idx = none`), a different descriptor. -/
theorem C6_empty_and_singleton :
    (∀ (eid : Option RandomId) (r : Reactivity),
      Content.reactivity (.List []) eid r = r)
    ∧ Reactivity.script ⟨[], [], []⟩ = ""
    ∧ (∀ id nm cc ats (eid : Option RandomId) (r : Reactivity),
        Content.reactivity (.List [.Element id nm cc ats]) eid r
          = Content.reactivity (.Element id nm cc ats) eid r)
    ∧ (∀ (eid : Option RandomId) (r : Reactivity),
        Content.reactivity (.List [.Empty]) eid r
          = Content.reactivity .Empty eid r)
    ∧ (∀ s (r : Reactivity), Content.reactivity (.List [.Text s]) none r
        = Content.reactivity (.Text s) none r)
    ∧ (∀ s (r : Reactivity), Content.reactivity (.List [.Raw s]) none r
        = Content.reactivity (.Raw s) none r)
    ∧ (∀ d (r : Reactivity), Content.reactivity (.List [.State d]) none r
        = Content.reactivity (.State d) none r)
    ∧ (∀ s (eid : RandomId) (r : Reactivity),
        (Content.reactivity (.List [.Text s]) (some eid)
            r).element_content_descriptors
          = r.element_content_descriptors
            ++ [⟨eid, some 0, [],
                 [RContent.Text (encodeScriptSingleQuotedText s)]⟩]
        ∧ Content.reactivity (.Text s) (some eid) r = r)
    ∧ (∀ s (eid : RandomId) (r : Reactivity),
        (Content.reactivity (.List [.Raw s]) (some eid)
            r).element_content_descriptors
          = r.element_content_descriptors
            ++ [⟨eid, some 0, [], [RContent.Text s]⟩]
        ∧ Content.reactivity (.Raw s) (some eid) r = r)
    ∧ (∀ (d : StateDescriptor) (eid : RandomId) (r : Reactivity),
        (Content.reactivity (.List [.State d]) (some eid)
            r).element_content_descriptors
          = r.element_content_descriptors
            ++ [⟨eid, some 0, [d], [RContent.Var 0]⟩]
        ∧ (Content.reactivity (.State d) (some eid)
            r).element_content_descriptors
          = r.element_content_descriptors
            ++ [⟨eid, none, [d], [RContent.Var 0]⟩]
        ∧ (⟨eid, some 0, [d], [RContent.Var 0]⟩
            : ElementContentReactivityDescriptor)
          ≠ ⟨eid, none, [d], [RContent.Var 0]⟩) := by
  refine ⟨?_, rfl, ?_, ?_, ?_, ?_, ?_,
    fun s eid r => ⟨listTextSome_ecd s eid r,
      by simp only [Content.reactivity]⟩,
    fun s eid r => ⟨listRawSome_ecd s eid r,
      by simp only [Content.reactivity]⟩,
    fun d eid r => ⟨listStateSome_ecd d eid r,
      stateReactivity_ecd d eid r, by simp⟩⟩ <;>
    intros <;>
    simp only [Content.reactivity, reactivityLoop, addGroup]

/-! ### State cells and the change queue (`src/states.rs`, `src/state.rs`) -/

/-- A state cell (`StateInner` plus its id) together with the contents of the
unbounded change channel it sends on (`changes_tx`).  The channel is modelled
as the ordered list of messages sent so far. -/
structure StateCell (α : Type) where
  id : RandomId
  value : α
  queue : List (RandomId × String)

/-- Rust `State::get` (`src/states.rs` line 65, `src/state.rs` line 69): a
snapshot of the current value. -/
def StateCell.get {α} (c : StateCell α) : α :=
  c.value

/-- Rust `State::try_set` from `src/states.rs` (the success path; `State::set`
from `src/state.rs` is the same operation): the string serialization
`value.to_string()` is computed at write time from the new value, the value
is stored, and one `(id, string)` message is sent on the change channel. -/
def StateCell.trySet {α} (toStr : α → String) (c : StateCell α) (v : α) :
    StateCell α :=
  let s := toStr v
  { c with value := v, queue := c.queue ++ [(c.id, s)] }

/-- C2: `get()` immediately after `set(v)` returns `v` (the cell stores the
typed value itself, so the result is exactly `v`, not merely
round-trip-equal). -/
theorem C2_get_after_set {α : Type} (toStr : α → String) (c : StateCell α)
    (v : α) :
    (c.trySet toStr v).get = v :=
  rfl

/-- C3: every successful `set(value)` enqueues exactly one change event,
carrying the cell's id and the serialization of the written value computed at
write time; the rest of the queue is untouched. -/
theorem C3_set_enqueues_one_event {α : Type} (toStr : α → String)
    (c : StateCell α) (v : α) :
    (c.trySet toStr v).queue = c.queue ++ [(c.id, toStr v)] :=
  rfl

/-! ### The computed-state graph (`src/computed.rs`) -/

/-- One synchronous computed-state registration made by
`ComputedStates::add_computed`: the target cell written by the listener, the
ordered dependency ids (`states.id_list()`), and the compute function applied
to the current dependency values (`compute(states.get())`). -/
structure SyncComputed (V : Type) where
  target : RandomId
  deps : List RandomId
  compute : List V → V

/-- The registered `on_change_listener`: `state.set(compute(states.get()))`,
i.e. overwrite the target with the compute function applied to the *current*
values of the dependencies. -/
def applyComputed {V} (c : SyncComputed V) (σ : RandomId → V) : RandomId → V :=
  fun j => if j = c.target then c.compute (c.deps.map σ) else σ j

/-- The `on_change_handler` map built by `add_computed`: for each computed
(in registration order) and each occurrence of an id in its dependency list,
one copy of its listener is pushed onto that id's handler vector. -/
def buildHandlers {V} (comps : List (SyncComputed V)) :
    RandomId → List (SyncComputed V) :=
  fun i => comps.flatMap fun c => (c.deps.filter (fun d => d = i)).map fun _ => c

/-- Rust `ComputedStates::recompute_dependents(id)`: run every synchronous
listener registered for `id`, in order. -/
def recomputeDependents {V} (m : RandomId → List (SyncComputed V))
    (id : RandomId) (σ : RandomId → V) : RandomId → V :=
  (m id).foldl (fun σ c => applyComputed c σ) σ

/-- The protocol loop (`src/live.rs`): a drained batch of changed ids
triggers `recompute_dependents` once per changed id. -/
def processBatch {V} (m : RandomId → List (SyncComputed V))
    (batch : List RandomId) (σ : RandomId → V) : RandomId → V :=
  batch.foldl (fun σ id => recomputeDependents m id σ) σ

theorem mem_buildHandlers {V} {comps : List (SyncComputed V)} {i : RandomId}
    {c : SyncComputed V} :
    c ∈ buildHandlers comps i ↔ c ∈ comps ∧ i ∈ c.deps := by
  simp only [buildHandlers, List.mem_flatMap, List.mem_map, List.mem_filter]
  constructor
  · rintro ⟨a, ha, d, hd, rfl⟩
    exact ⟨ha, by simpa [decide_eq_true_eq] using
      (of_decide_eq_true hd.2 ▸ hd.1 : i ∈ a.deps)⟩
  · rintro ⟨hc, hd⟩
    exact ⟨c, hc, i, ⟨hd, by simp⟩, rfl⟩

theorem foldApply_nontarget {V} (cs : List (SyncComputed V)) (σ : RandomId → V)
    (j : RandomId) (hj : ∀ c ∈ cs, j ≠ c.target) :
    (cs.foldl (fun σ c => applyComputed c σ) σ) j = σ j := by
  induction cs generalizing σ with
  | nil => rfl
  | cons c cs ih =>
    rw [List.foldl_cons, ih _ (fun c' hc' => hj c' (List.mem_cons_of_mem c hc'))]
    simp [applyComputed, hj c (List.mem_cons_self c cs)]

theorem recompute_nontarget {V} (comps : List (SyncComputed V)) (id : RandomId)
    (σ : RandomId → V) (j : RandomId)
    (hj : ∀ c ∈ comps, j ≠ c.target) :
    recomputeDependents (buildHandlers comps) id σ j = σ j :=
  foldApply_nontarget _ σ j fun c hc => hj c (mem_buildHandlers.mp hc).1

theorem processBatch_nontarget {V} (comps : List (SyncComputed V))
    (batch : List RandomId) (σ : RandomId → V) (j : RandomId)
    (hj : ∀ c ∈ comps, j ≠ c.target) :
    processBatch (buildHandlers comps) batch σ j = σ j := by
  induction batch generalizing σ with
  | nil => rfl
  | cons id rest ih =>
    rw [processBatch, List.foldl_cons]
    have := ih (recomputeDependents (buildHandlers comps) id σ)
    rw [processBatch] at this
    rw [this, recompute_nontarget comps id σ j hj]

theorem foldApply_target {V} (comps cs : List (SyncComputed V))
    (c : SyncComputed V) (σ : RandomId → V)
    (hc : c ∈ comps)
    (hcs : ∀ c' ∈ cs, c' ∈ comps)
    (hfresh : ∀ c₁ ∈ comps, ∀ c₂ ∈ comps, c₁.target ∉ c₂.deps)
    (hinj : ∀ c₁ ∈ comps, ∀ c₂ ∈ comps, c₁.target = c₂.target → c₁ = c₂) :
    (c ∈ cs →
      (cs.foldl (fun σ c' => applyComputed c' σ) σ) c.target
        = c.compute (c.deps.map σ))
    ∧ (c ∉ cs →
      (cs.foldl (fun σ c' => applyComputed c' σ) σ) c.target = σ c.target) := by
  induction cs generalizing σ with
  | nil => exact ⟨fun h => absurd h (List.not_mem_nil c), fun _ => rfl⟩
  | cons c' cs ih =>
    have hc' : c' ∈ comps := hcs c' (List.mem_cons_self c' cs)
    have hdepsEq : c.deps.map (applyComputed c' σ) = c.deps.map σ := by
      apply List.map_congr_left
      intro d hd
      have : d ≠ c'.target := fun h => hfresh c' hc' c hc (h ▸ hd)
      simp [applyComputed, this]
    have ihs := ih (applyComputed c' σ)
      (fun x hx => hcs x (List.mem_cons_of_mem c' hx))
    rw [hdepsEq] at ihs
    by_cases hcc : c = c'
    · subst hcc
      have htgt : applyComputed c σ c.target = c.compute (c.deps.map σ) := by
        simp [applyComputed]
      refine ⟨fun _ => ?_, fun h => absurd (List.mem_cons_self c cs) h⟩
      rw [List.foldl_cons]
      rcases Classical.em (c ∈ cs) with h | h
      · exact ihs.1 h
      · rw [ihs.2 h, htgt]
    · have htgtne : c.target ≠ c'.target := fun h => hcc (hinj c hc c' hc' h)
      have htgt : applyComputed c' σ c.target = σ c.target := by
        simp [applyComputed, htgtne]
      constructor
      · intro h
        have hmem : c ∈ cs := by
          rcases List.mem_cons.mp h with h | h
          · exact absurd h hcc
          · exact h
        rw [List.foldl_cons]
        exact ihs.1 hmem
      · intro h
        have hmem : c ∉ cs := fun hx => h (List.mem_cons_of_mem c' hx)
        rw [List.foldl_cons, ihs.2 hmem, htgt]

theorem recompute_target {V} (comps : List (SyncComputed V))
    (c : SyncComputed V) (id : RandomId) (σ : RandomId → V)
    (hc : c ∈ comps)
    (hfresh : ∀ c₁ ∈ comps, ∀ c₂ ∈ comps, c₁.target ∉ c₂.deps)
    (hinj : ∀ c₁ ∈ comps, ∀ c₂ ∈ comps, c₁.target = c₂.target → c₁ = c₂) :
    recomputeDependents (buildHandlers comps) id σ c.target
      = if id ∈ c.deps then c.compute (c.deps.map σ) else σ c.target := by
  have hft := foldApply_target comps (buildHandlers comps id) c σ hc
    (fun x hx => (mem_buildHandlers.mp hx).1) hfresh hinj
  by_cases h : id ∈ c.deps
  · rw [recomputeDependents, hft.1 (mem_buildHandlers.mpr ⟨hc, h⟩), if_pos h]
  · rw [recomputeDependents,
      hft.2 (fun hx => h (mem_buildHandlers.mp hx).2), if_neg h]

theorem processBatch_target {V} (comps : List (SyncComputed V))
    (c : SyncComputed V) (batch : List RandomId) (σ : RandomId → V)
    (hc : c ∈ comps)
    (hfresh : ∀ c₁ ∈ comps, ∀ c₂ ∈ comps, c₁.target ∉ c₂.deps)
    (hinj : ∀ c₁ ∈ comps, ∀ c₂ ∈ comps, c₁.target = c₂.target → c₁ = c₂) :
    processBatch (buildHandlers comps) batch σ c.target
      = if ∃ id ∈ batch, id ∈ c.deps then c.compute (c.deps.map σ)
        else σ c.target := by
  induction batch generalizing σ with
  | nil => simp [processBatch]
  | cons id rest ih =>
    have hdepnt : ∀ d ∈ c.deps, ∀ c' ∈ comps, d ≠ c'.target :=
      fun d hd c' hc' h => hfresh c' hc' c hc (h ▸ hd)
    have hdepsEq :
        c.deps.map (recomputeDependents (buildHandlers comps) id σ)
          = c.deps.map σ := by
      apply List.map_congr_left
      intro d hd
      exact recompute_nontarget comps id σ d (hdepnt d hd)
    rw [processBatch, List.foldl_cons]
    have := ih (recomputeDependents (buildHandlers comps) id σ)
    rw [processBatch] at this
    rw [this, hdepsEq, recompute_target comps c id σ hc hfresh hinj]
    by_cases h1 : id ∈ c.deps
    · simp [h1]
    · by_cases h2 : ∃ i ∈ rest, i ∈ c.deps <;> simp [h1, h2]

/-- C1: once `recompute_dependents` has been invoked for every changed id of
a batch, each synchronous computed state's value equals its compute function
applied to the current values of its dependencies.  The hypotheses record
how `use_computed` constructs registrations: target cells are fresh (never a
dependency of any computed) and pairwise distinct; the computed is either
touched by the batch or already consistent (as `add_computed`'s immediate
initial evaluation guarantees). -/
theorem C1_recompute_consistency {V : Type} (comps : List (SyncComputed V))
    (batch : List RandomId) (σ : RandomId → V) (c : SyncComputed V)
    (hc : c ∈ comps)
    (hfresh : ∀ c₁ ∈ comps, ∀ c₂ ∈ comps, c₁.target ∉ c₂.deps)
    (hinj : ∀ c₁ ∈ comps, ∀ c₂ ∈ comps, c₁.target = c₂.target → c₁ = c₂)
    (hbatch : (∃ id ∈ batch, id ∈ c.deps)
      ∨ σ c.target = c.compute (c.deps.map σ)) :
    processBatch (buildHandlers comps) batch σ c.target
      = c.compute (c.deps.map (processBatch (buildHandlers comps) batch σ)) := by
  have hdepnt : ∀ d ∈ c.deps, ∀ c' ∈ comps, d ≠ c'.target :=
    fun d hd c' hc' h => hfresh c' hc' c hc (h ▸ hd)
  have hdepsEq :
      c.deps.map (processBatch (buildHandlers comps) batch σ)
        = c.deps.map σ := by
    apply List.map_congr_left
    intro d hd
    exact processBatch_nontarget comps batch σ d (hdepnt d hd)
  rw [hdepsEq, processBatch_target comps c batch σ hc hfresh hinj]
  rcases hbatch with h | h
  · simp [h]
  · split <;> simp [h.symm]

/-- C1 witness: the spec's own scenario — `counter = 5` (after the write),
`doubled = counter * 2`; after `recompute_dependents(counter.id)` the
computed cell holds `10`. -/
theorem C1_recompute_consistency_witness :
    processBatch
        (buildHandlers [⟨⟨['t']⟩, [⟨['a']⟩], fun l => (l.headD 0) * 2⟩])
        [⟨['a']⟩] (fun _ => (5 : Nat)) ⟨['t']⟩
      = (fun l => (l.headD 0) * 2)
          ([⟨['a']⟩].map (processBatch
            (buildHandlers [⟨⟨['t']⟩, [⟨['a']⟩], fun l => (l.headD 0) * 2⟩])
            [⟨['a']⟩] (fun _ => (5 : Nat)))) :=
  C1_recompute_consistency
    [⟨⟨['t']⟩, [⟨['a']⟩], fun l => (l.headD 0) * 2⟩]
    [⟨['a']⟩] (fun _ => (5 : Nat)) ⟨⟨['t']⟩, [⟨['a']⟩], fun l => (l.headD 0) * 2⟩
    (by simp)
    (by intro c₁ h₁ c₂ h₂; simp at h₁ h₂; subst h₁; subst h₂; decide)
    (by intro c₁ h₁ c₂ h₂ _; simp at h₁ h₂; rw [h₁, h₂])
    (Or.inl ⟨⟨['a']⟩, by simp, by simp⟩)

/-! ### The client-event registry (`src/event_handlers.rs`) -/

/-- One `Event` entry: the registered handlers (erased callbacks, modelled as
opaque tokens of type `H`) and the `HashSet` of payload field names. -/
structure EventEntry (H : Type) where
  handlers : List H
  params : Finset String

/-- Rust `Events::add`.  The payload type `P` enters only through
`helpers::struct_fields::<P>()`.  Modelled from the spec: `helpers` is not in
the source tree; per the spec the registry "tracks the union of payload field
names actually read by any of an event's handlers", so a registration carries
`fields`, the payload struct's field-name list (`none` when the payload type
is not a struct, matching the `Option` the source unwraps with
`unwrap_or_default`).  If the event name exists, the new handler is pushed
and its fields are inserted into the entry's set; otherwise a fresh entry is
created. -/
def Events.add {H : Type} (es : List (String × EventEntry H)) (name : String)
    (fields : Option (List String)) (h : H) : List (String × EventEntry H) :=
  if (es.lookup name).isSome then
    es.map fun ne =>
      if ne.1 = name then
        (ne.1, { handlers := ne.2.handlers ++ [h],
                 params := (fields.getD []).foldl (fun s f => insert f s)
                   ne.2.params })
      else ne
  else
    es ++ [(name, { handlers := [h],
                    params := (fields.getD []).foldl (fun s f => insert f s) ∅ })]

/-- Rust `Events::handle`: dispatching an event name returns the registry
(unchanged — `handle` only reads the map) together with the list of handler
invocations spawned onto the join set, each receiving a clone of the
payload.  An unknown name spawns nothing. -/
def Events.handle {H π : Type} (es : List (String × EventEntry H))
    (name : String) (payload : π) :
    List (String × EventEntry H) × List (H × π) :=
  match es.lookup name with
  | none => (es, [])
  | some ent => (es, ent.handlers.map fun h => (h, payload))

/-- Rust `Events::list`: `(event_name, field_names)` pairs. -/
def Events.list {H : Type} (es : List (String × EventEntry H)) :
    List (String × Finset String) :=
  es.map fun ne => (ne.1, ne.2.params)

theorem foldl_insert_eq_union (l : List String) (s : Finset String) :
    l.foldl (fun s f => insert f s) s = s ∪ l.toFinset := by
  induction l generalizing s with
  | nil => simp
  | cons f rest ih =>
    rw [List.foldl_cons, ih, List.toFinset_cons]
    ext x
    simp [or_comm, or_left_comm]

theorem lookup_cons_self {β : Type} (k : String) (b : β)
    (l : List (String × β)) : ((k, b) :: l).lookup k = some b := by
  simp [List.lookup]

theorem lookup_cons_ne {β : Type} (k a : String) (b : β)
    (l : List (String × β)) (h : a ≠ k) :
    ((a, b) :: l).lookup k = l.lookup k := by
  have hb : (k == a) = false := beq_eq_false_iff_ne.mpr fun he => h he.symm
  simp [List.lookup, hb]

theorem lookup_map_entry {H : Type} (es : List (String × EventEntry H))
    (name : String) (g : EventEntry H → EventEntry H) :
    (es.map fun ne => if ne.1 = name then (ne.1, g ne.2) else ne).lookup name
      = (es.lookup name).map g := by
  induction es with
  | nil => rfl
  | cons ne rest ih =>
    rcases ne with ⟨a, b⟩
    by_cases h : a = name
    · subst h
      simp only [List.map_cons, eq_self_iff_true, if_true]
      rw [lookup_cons_self, lookup_cons_self]
      rfl
    · simp only [List.map_cons, if_neg h]
      rw [lookup_cons_ne _ _ _ _ h, lookup_cons_ne _ _ _ _ h, ih]

theorem lookup_events_list {H : Type} (es : List (String × EventEntry H))
    (name : String) :
    (Events.list es).lookup name = (es.lookup name).map EventEntry.params := by
  induction es with
  | nil => rfl
  | cons ne rest ih =>
    rcases ne with ⟨a, b⟩
    by_cases h : a = name
    · subst h
      simp only [Events.list, List.map_cons]
      rw [lookup_cons_self, lookup_cons_self]
      rfl
    · simp only [Events.list, List.map_cons] at ih ⊢
      rw [lookup_cons_ne _ _ _ _ h, lookup_cons_ne _ _ _ _ h, ih]

theorem lookup_append_right {β : Type} (es : List (String × β))
    (name : String) (b : β) (hnone : es.lookup name = none) :
    (es ++ [(name, b)]).lookup name = some b := by
  induction es with
  | nil => simp [lookup_cons_self]
  | cons ne rest ih =>
    rcases ne with ⟨a, v⟩
    by_cases h : a = name
    · subst h
      rw [lookup_cons_self] at hnone
      cases hnone
    · rw [List.cons_append, lookup_cons_ne _ _ _ _ h]
      rw [lookup_cons_ne _ _ _ _ h] at hnone
      exact ih hnone

/-- C8: registering a handler for an event name that already has handlers
appends it (prior handlers survive) and unions the new handler's field
names into the entry's field set; and, as in the spec's scenario,
registering two handlers with field sets `{x}` and `{y}` on a fresh event
name makes `list()` report `{x, y}` for it, with both handlers present. -/
theorem C8_event_registration_additive {H : Type}
    (es : List (String × EventEntry H)) (name : String) (h₁ h₂ : H)
    (f₁ f₂ : String) :
    (∀ ent fields hdl, es.lookup name = some ent →
      (Events.add es name fields hdl).lookup name
        = some ⟨ent.handlers ++ [hdl], ent.params ∪ (fields.getD []).toFinset⟩)
    ∧ (es.lookup name = none →
      (Events.list (Events.add (Events.add es name (some [f₁]) h₁)
          name (some [f₂]) h₂)).lookup name
        = some ({f₁, f₂} : Finset String)
      ∧ (Events.add (Events.add es name (some [f₁]) h₁)
          name (some [f₂]) h₂).lookup name
        = some ⟨[h₁, h₂], {f₁, f₂}⟩) := by
  constructor
  · intro ent fields hdl hfound
    rw [Events.add, if_pos (by simp [hfound])]
    rw [lookup_map_entry es name
      (fun e => ⟨e.handlers ++ [hdl],
        (fields.getD []).foldl (fun s f => insert f s) e.params⟩)]
    rw [hfound]
    simp [foldl_insert_eq_union]
  · intro hnone
    have step1 : (Events.add es name (some [f₁]) h₁).lookup name
        = some ⟨[h₁], {f₁}⟩ := by
      rw [Events.add, if_neg (by simp [hnone])]
      have : ({f₁} : Finset String)
          = ([f₁] : List String).foldl (fun s f => insert f s) ∅ := by
        simp [foldl_insert_eq_union]
      rw [this]
      exact lookup_append_right es name _ hnone
    have step2 : (Events.add (Events.add es name (some [f₁]) h₁)
        name (some [f₂]) h₂).lookup name = some ⟨[h₁, h₂], {f₁, f₂}⟩ := by
      rw [Events.add, if_pos (by simp [step1])]
      rw [lookup_map_entry _ name
        (fun e => ⟨e.handlers ++ [h₂],
          ((some [f₂] : Option (List String)).getD []).foldl
            (fun s f => insert f s) e.params⟩)]
      rw [step1]
      have hunion : ({f₁} : Finset String) ∪ ({f₂} : Finset String)
          = {f₁, f₂} := by
        ext x
        simp [or_comm]
      simp [foldl_insert_eq_union, hunion, Finset.pair_comm]
    refine ⟨?_, step2⟩
    rw [lookup_events_list, step2]
    rfl

/-- C8 witness: a concrete registry with a fresh `"click"` event and two
handlers requiring fields `x` and `y` respectively; `list()` reports the
union and both handlers are present. -/
theorem C8_event_registration_additive_witness :
    (Events.list (Events.add (Events.add ([] : List (String × EventEntry Nat))
        "click" (some ["x"]) 1) "click" (some ["y"]) 2)).lookup "click"
      = some ({"x", "y"} : Finset String)
    ∧ (Events.add (Events.add ([] : List (String × EventEntry Nat))
        "click" (some ["x"]) 1) "click" (some ["y"]) 2).lookup "click"
      = some ⟨[1, 2], {"x", "y"}⟩ :=
  (C8_event_registration_additive [] "click" 1 2 "x" "y").2 rfl

/-! ### The live socket message dispatcher (`src/live.rs`) -/

/-- Rust `SocketError` from `src/live.rs`: `Fatal` ends the connection loop,
`SkipMessage` continues it. -/
inductive SocketError where
  | Fatal
  | SkipMessage
deriving DecidableEq, Repr

/-- Rust `InMessage` from `src/live.rs` (payloads abstracted to `π`). -/
inductive InMessage (π : Type) where
  | Closure (closure : RandomId)
  | Event (name : String) (params : π)
  | SetState (id : RandomId) (value : π)

/-- The action a successfully-dispatched message performs.  `Panic` stands
for the `panic!("state not found")` the source hits on an unknown state id. -/
inductive SocketOutcome (κ η ς π : Type) where
  | SpawnClosure (c : κ)
  | SpawnEvent (h : η) (params : π)
  | SetValue (s : ς) (value : π)
  | Panic

/-- The message-dispatch half of `handle_socket_message` (`src/live.rs`):
an unknown closure id is fatal; an unknown event name is fatal; an unknown
state id panics; otherwise the looked-up callback or cell is handed to the
worker pool / written.  (Closures, event handlers and state cells are
erased to tokens of types `κ`, `η`, `ς`.) -/
def handleSocketMessage {κ η ς π : Type} (closures : List (RandomId × κ))
    (events : List (String × η)) (states : List (RandomId × ς)) :
    InMessage π → Except SocketError (SocketOutcome κ η ς π)
  | .Closure cid =>
    match closures.lookup cid with
    | none => .error .Fatal
    | some c => .ok (.SpawnClosure c)
  | .Event name params =>
    match events.lookup name with
    | none => .error .Fatal
    | some h => .ok (.SpawnEvent h params)
  | .SetState id value =>
    match states.lookup id with
    | none => .ok .Panic
    | some s => .ok (.SetValue s value)

/-- C9 counterexample: in the live socket loop, a client event whose name
has no registered handler is *not* a no-op — `handle_socket_message` returns
`SocketError::Fatal` and the connection loop `return`s, closing the
connection. -/
theorem C9_counterexample_unknown_event_fatal :
    handleSocketMessage ([] : List (RandomId × Nat))
        ([] : List (String × Nat)) ([] : List (RandomId × Nat))
        (InMessage.Event "click" (0 : Nat))
      = .error .Fatal := by
  rfl

/-- C9 (amended): the two dispatch paths disagree.  `Events::handle`
(`src/event_handlers.rs`) treats an unknown event name as a no-op — the
registry is unchanged and no handler is spawned; but the live socket loop's
`handle_socket_message` (`src/live.rs`) treats an unknown event name as a
fatal error that terminates the connection. -/
theorem C9_unknown_event_policy {H η κ ς π : Type}
    (es : List (String × EventEntry H)) (name : String) (payload : π)
    (closures : List (RandomId × κ)) (events : List (String × η))
    (states : List (RandomId × ς))
    (hes : es.lookup name = none) (hev : events.lookup name = none) :
    Events.handle es name payload = (es, [])
    ∧ handleSocketMessage closures events states (.Event name payload)
      = .error .Fatal := by
  constructor
  · rw [Events.handle, hes]
  · rw [handleSocketMessage, hev]

/-- C9 witness: both disagreement halves at a concrete unknown event. -/
theorem C9_unknown_event_policy_witness :
    Events.handle ([] : List (String × EventEntry Nat)) "click" (7 : Nat)
      = ([], [])
    ∧ handleSocketMessage ([] : List (RandomId × Nat))
        ([] : List (String × Nat)) ([] : List (RandomId × Nat))
        (InMessage.Event "click" (7 : Nat))
      = .error .Fatal :=
  C9_unknown_event_policy [] "click" 7 [] [] [] rfl rfl

/-! ### Seeded id minting (`src/context.rs`, `src/random_id.rs`) -/

/-- An abstract deterministic random generator, standing for `rand`'s
`StdRng`: `seedFromU64` is `StdRng::seed_from_u64` and `sample` is
`rng.sample(Alphanumeric)`.  Both are pure functions of the generator
state, which is what the `rand` crate guarantees for a seeded `StdRng`. -/
structure RngSpec where
  Gen : Type
  seedFromU64 : Nat → Gen
  sample : Gen → Char × Gen

/-- Draw `n` characters in sequence. -/
def sampleN (R : RngSpec) : Nat → R.Gen → List Char × R.Gen
  | 0, g => ([], g)
  | n + 1, g =>
    let cg := R.sample g
    let csg := sampleN R n cg.2
    (cg.1 :: csg.1, csg.2)

/-- Rust `RandomId::from_rng`: an id of `RANDOM_ID_LENGTH = 8` sampled
characters. -/
def RandomId.fromRng (R : RngSpec) (g : R.Gen) : RandomId × R.Gen :=
  let csg := sampleN R 8 g
  (⟨csg.1⟩, csg.2)

/-- The parts of `Context` (`src/context.rs`) relevant to id minting: the
generator seeded once in `Context::new`, the `in_websocket` flag, and the
ids handed out to state cells and closures in declaration order. -/
structure CtxIds (R : RngSpec) where
  rng : R.Gen
  rng_seed : Nat
  in_websocket : Bool
  state_ids : List RandomId
  closure_ids : List RandomId

/-- Rust `Context::new(seed, in_websocket)`: `rng = StdRng::seed_from_u64(seed)`. -/
def Context.new (R : RngSpec) (seed : Nat) (inWs : Bool) : CtxIds R :=
  { rng := R.seedFromU64 seed, rng_seed := seed, in_websocket := inWs,
    state_ids := [], closure_ids := [] }

/-- Rust `Context::use_state_inner`: mint `RandomId::from_rng(&mut self.rng)` for
the new state cell. -/
def CtxIds.useState {R : RngSpec} (ctx : CtxIds R) : CtxIds R :=
  let idg := RandomId.fromRng R ctx.rng
  { ctx with rng := idg.2, state_ids := ctx.state_ids ++ [idg.1] }

/-- Rust `Context::use_closure`: mint an id the same way. -/
def CtxIds.useClosure {R : RngSpec} (ctx : CtxIds R) : CtxIds R :=
  let idg := RandomId.fromRng R ctx.rng
  { ctx with rng := idg.2, closure_ids := ctx.closure_ids ++ [idg.1] }

/-- A handler body, as far as id minting is concerned: the sequence of
`use_state` / `use_closure` calls it makes. -/
inductive HandlerStep where
  | DeclareState
  | DeclareClosure
deriving DecidableEq, Repr

/-- Run the handler's declarations against a context. -/
def runHandler {R : RngSpec} (ctx : CtxIds R) : List HandlerStep → CtxIds R
  | [] => ctx
  | .DeclareState :: rest => runHandler ctx.useState rest
  | .DeclareClosure :: rest => runHandler ctx.useClosure rest

theorem runHandler_ids_congr {R : RngSpec} (steps : List HandlerStep)
    (c₁ c₂ : CtxIds R) (hr : c₁.rng = c₂.rng)
    (hs : c₁.state_ids = c₂.state_ids)
    (hc : c₁.closure_ids = c₂.closure_ids) :
    (runHandler c₁ steps).rng = (runHandler c₂ steps).rng
    ∧ (runHandler c₁ steps).state_ids = (runHandler c₂ steps).state_ids
    ∧ (runHandler c₁ steps).closure_ids = (runHandler c₂ steps).closure_ids := by
  induction steps generalizing c₁ c₂ with
  | nil => exact ⟨hr, hs, hc⟩
  | cons s rest ih =>
    cases s
    · exact ih c₁.useState c₂.useState
        (by simp [CtxIds.useState, hr]) (by simp [CtxIds.useState, hr, hs])
        (by simp [CtxIds.useState, hc])
    · exact ih c₁.useClosure c₂.useClosure
        (by simp [CtxIds.useClosure, hr]) (by simp [CtxIds.useClosure, hs])
        (by simp [CtxIds.useClosure, hr, hc])

/-- C7: running the same handler (the same declaration sequence) against two
contexts created from the same seed yields identical `RandomId` sequences
for the state cells, regardless of the `in_websocket` flag — this is the
render/upgrade determinism the protocol relies on. -/
theorem C7_same_seed_same_state_ids (R : RngSpec) (seed : Nat)
    (steps : List HandlerStep) (b₁ b₂ : Bool) :
    (runHandler (Context.new R seed b₁) steps).state_ids
      = (runHandler (Context.new R seed b₂) steps).state_ids :=
  (runHandler_ids_congr steps (Context.new R seed b₁) (Context.new R seed b₂)
    rfl rfl rfl).2.1

end Coaxial
